import Mathlib

/-!
WebCall `httpServer.go`: session resolution, logout, notification push, client ids

A shallow embedding of the parts of `httpServer.go` that resolve the identity of a
request (`httpApiHandler`, lines 235-345), clear a session (`/logout` branch, lines
446-474), push backlog lists to a callee (`waitingCallerToCallee`) and allocate a
connection id (`getNewWsClientID`).

Go strings are modelled as lists of characters (`GoString`); an index returned by
`strings.Index` is an `Int` (`-1` when absent), and the slices `s[:i]`, `s[i:]` are
`List.take` and `List.drop` at that index.  The separators the code searches for are
ASCII, so byte offsets and character offsets cut a well-formed string at the same place.
-/

namespace WebCall

/-- A Go `string`, as the list of its characters. -/
abbrev GoString := List Char

/-! ## The `strings` functions the handler uses -/

/-- The function `strings.HasPrefix`. -/
def HasPrefix (s pre : GoString) : Bool := pre.isPrefixOf s

/-- The function `strings.HasSuffix`. -/
def HasSuffix (s suf : GoString) : Bool := suf.isSuffixOf s

/-- The function `strings.Index`: the position of the first occurrence of `substr` in `s`,
or `-1` when there is none. -/
def Index : GoString → GoString → Int
  | [], substr => if substr.isPrefixOf [] then 0 else -1
  | c :: t, substr =>
    if substr.isPrefixOf (c :: t) then 0
    else
      let i := Index t substr
      if i < 0 then -1 else i + 1

/-- The function `strings.ToLower`, which maps every character through `unicode.ToLower`;
the character mapping is the argument `lower`. -/
def ToLower (lower : Char → Char) (s : GoString) : GoString := s.map lower

/-! ## Requests, cookies and the credential store -/

/-- The record `PwIdCombo` kept in the credential store. -/
structure PwIdCombo where
  CalleeId : GoString
  Pw : GoString
  deriving DecidableEq, Repr

/-- Modelled from the spec: the bucket `dbHashedPwBucket` of the key-value store
`kvHashedPw` (package `skv`, not part of this file), as a map from key to record; a key
without a record is the not-found case. -/
abbrev KV := GoString → Option PwIdCombo

/-- Modelled from the spec: `kvHashedPw.Get(dbHashedPwBucket, key, &pwIdCombo)`, a point
lookup that gives the record or fails with not-found (`none`). -/
def KV.Get (kv : KV) (key : GoString) : Option PwIdCombo := kv key

/-- Modelled from the spec: `kvHashedPw.Delete(dbHashedPwBucket, key)`, which removes the
record under `key`; the boolean is `err == nil` (false stands for not-found). -/
def KV.Delete (kv : KV) (key : GoString) : KV × Bool :=
  (fun k => if k = key then none else kv k, (kv key).isSome)

/-- The parts of an `*http.Request` that the session resolution reads. -/
structure Request where
  /-- The value of `r.Referer()`. -/
  referer : GoString
  /-- The entry `r.URL.Query()["id"]`: `none` when the key is absent (`ok == false`),
  else its first value `url_arg_array[0]`. -/
  idArg : Option GoString
  /-- The cookies of the request, as (name, value) pairs in header order. -/
  cookies : List (GoString × GoString)

/-- The method `r.Cookie(name)`: the value of the first cookie of that name, or `none`
for `http.ErrNoCookie`. -/
def Request.Cookie (r : Request) (name : GoString) : Option GoString :=
  (r.cookies.find? (fun c => decide (c.1 = name))).map Prod.snd

/-! ## Session resolution (`httpApiHandler`, lines 235-345) -/

/-- Lines 235-239: the referer with its `?...` suffix removed. -/
def refererPath (referer : GoString) : GoString :=
  let refOptionsIdx := Index referer "?".toList
  if refOptionsIdx ≥ 0 then referer.take refOptionsIdx.toNat else referer

/-- Lines 244-248: the provisional `calleeID`, from the referer. -/
def calleeIDFromReferer (lower : Char → Char) (referer : GoString) : GoString :=
  let idxCalleeID := Index referer "/callee/".toList
  if idxCalleeID ≥ 0 ∧ ¬ HasSuffix referer "/".toList = true then
    ToLower lower (referer.drop (idxCalleeID + 8).toNat)
  else []

/-- Lines 255-263: `urlID` taken from the referer, when the `id` argument gives none. -/
def urlIDFromReferer (referer : GoString) : GoString :=
  let idxUserID := Index referer "/user/".toList
  if idxUserID ≥ 0 ∧ ¬ HasSuffix referer "/".toList = true then
    referer.drop (idxUserID + 6).toNat
  else
    let idxUserID := Index referer "/button/".toList
    if idxUserID ≥ 0 ∧ ¬ HasSuffix referer "/".toList = true then
      referer.drop (idxUserID + 8).toNat
    else []

/-- Lines 250-264: `urlID`. -/
def urlIDOf (lower : Char → Char) (idArg : Option GoString) (referer : GoString) :
    GoString :=
  match idArg with
  | some a => if a.length > 0 then ToLower lower a else urlIDFromReferer referer
  | none => urlIDFromReferer referer

/-- Lines 274-278: the name of the session cookie. -/
def cookieNameOf (urlID : GoString) : GoString :=
  if urlID ≠ [] ∧ HasPrefix urlID "answie".toList = true then "webcallid-".toList ++ urlID
  else "webcallid".toList

/-- What the session resolution hands to the handlers. -/
structure Session where
  calleeID : GoString
  urlID : GoString
  /-- The variable `cookie` after the resolution: the value of the cookie, or `none`
  for `cookie == nil`. -/
  cookie : Option GoString
  pw : GoString
  /-- The keys given to `kvHashedPw.Get`, in order. -/
  gets : List GoString
  deriving DecidableEq

/-- The flag `cookieValid` of the spec: `cookie != nil`. -/
def Session.cookieValid (s : Session) : Bool := s.cookie.isSome

/-- Lines 279-345: the cookie is checked and `calleeID`, `cookie` and `pw` are settled.
`calleeID` is the provisional value from the referer, `cookie` the result of
`r.Cookie(cookieName)`. -/
def resolveCookie (kvHashedPw : KV) (urlID calleeID : GoString) (cookie : Option GoString) :
    Session :=
  match cookie with
  | none => { calleeID := calleeID, urlID := urlID, cookie := none, pw := [], gets := [] }
  | some value =>
    let idxAmpasent := Index value "&".toList
    if idxAmpasent < 0 then
      { calleeID := calleeID, urlID := urlID, cookie := none, pw := [], gets := [] }
    else
      let calleeIdFromCookie := value.take idxAmpasent.toNat
      let calleeID := if calleeIdFromCookie ≠ [] then calleeIdFromCookie else calleeID
      if calleeID ≠ [] ∧ calleeID ≠ calleeIdFromCookie then
        { calleeID := calleeID, urlID := urlID, cookie := none, pw := [], gets := [] }
      else
        match kvHashedPw.Get value with
        | none =>
          { calleeID := calleeID, urlID := urlID, cookie := none, pw := [],
            gets := [value] }
        | some pwIdCombo =>
          if calleeID ≠ [] ∧ pwIdCombo.CalleeId ≠ calleeID then
            { calleeID := calleeID, urlID := urlID, cookie := none, pw := [],
              gets := [value] }
          else if pwIdCombo.Pw = [] then
            { calleeID := calleeID, urlID := urlID, cookie := none, pw := [],
              gets := [value] }
          else
            { calleeID := calleeID, urlID := urlID, cookie := some value,
              pw := pwIdCombo.Pw, gets := [value] }

/-- Lines 235-345 of `httpApiHandler`: from the request and the credential store to
`calleeID`, `urlID`, `cookie` and `pw`. -/
def sessionResolution (lower : Char → Char) (kvHashedPw : KV) (r : Request) : Session :=
  let referer := refererPath r.referer
  let calleeID := calleeIDFromReferer lower referer
  let urlID := urlIDOf lower r.idArg referer
  let cookieName := cookieNameOf urlID
  resolveCookie kvHashedPw urlID calleeID (r.Cookie cookieName)

/-! ## The `/logout` branch (`httpApiHandler`, lines 446-474) -/

/-- The type `http.SameSite`. -/
inductive SameSite where
  | SameSiteDefaultMode
  | SameSiteLaxMode
  | SameSiteStrictMode
  | SameSiteNoneMode
  deriving DecidableEq, Repr

/-- The fields of `http.Cookie` that the logout branch sets; `Expires` is an instant in
nanoseconds. -/
structure HttpCookie where
  Name : GoString
  Value : GoString
  Path : GoString
  HttpOnly : Bool
  SameSite : SameSite
  Expires : Int
  deriving DecidableEq, Repr

/-- The constant `time.Hour`, a duration in nanoseconds. -/
def Hour : Int := 3600000000000

/-- What the logout branch leaves behind: the credential store, the body written to the
response (`fmt.Fprintf(w, ...)`) and the cookie given to `http.SetCookie`. -/
structure LogoutResult where
  kvHashedPw : KV
  body : GoString
  setCookie : HttpCookie

/-- Lines 449-452: the cookie name computed again in the logout branch. -/
def logoutCookieName (urlID : GoString) : GoString :=
  if HasPrefix urlID "answie".toList = true then "webcallid-".toList ++ urlID
  else "webcallid".toList

/-- Lines 446-474: the branch `urlPath == "/logout"`; `now` is the value of `time.Now()`. -/
def logoutBranch (kvHashedPw : KV) (r : Request) (urlID : GoString) (now : Int) :
    LogoutResult :=
  let cookieName := logoutCookieName urlID
  let deleted : KV × GoString :=
    match r.Cookie cookieName with
    | some value =>
      let res := kvHashedPw.Delete value
      if res.2 = true then (res.1, "ok".toList) else (res.1, [])
    | none => (kvHashedPw, [])
  let expiration := now + (-1) * Hour
  { kvHashedPw := deleted.1
    body := deleted.2
    setCookie :=
      { Name := cookieName, Value := [], Path := "/".toList, HttpOnly := false,
        SameSite := SameSite.SameSiteStrictMode, Expires := expiration } }

/-- A `/logout` request through `httpApiHandler`: the session resolution gives `urlID`,
then the logout branch runs. -/
def httpApiHandlerLogout (lower : Char → Char) (kvHashedPw : KV) (r : Request) (now : Int) :
    LogoutResult :=
  logoutBranch kvHashedPw r (sessionResolution lower kvHashedPw r).urlID now

/-! ## Notification push (`waitingCallerToCallee`, lines 554-583) -/

/-- What a call does and returns: the `Write` calls on connections (connection and
payload, in order), the lines given to `fmt.Printf`, and the value handed back to the
caller. -/
structure Run (WsClient : Type) (ρ : Type) where
  writes : List (WsClient × GoString)
  printed : List GoString
  ret : ρ

/-- The function `json.Marshal` on a slice (`none` is the nil slice): `null` for nil, else
the elements between brackets, separated by commas; `enc` encodes one element and may
fail with an error text. -/
def jsonMarshal {CallerInfo : Type} (enc : CallerInfo → Except GoString GoString) :
    Option (List CallerInfo) → Except GoString GoString
  | none => Except.ok "null".toList
  | some items =>
    match items.mapM enc with
    | Except.error e => Except.error e
    | Except.ok parts => Except.ok ("[".toList ++ ",".toList.intercalate parts ++ "]".toList)

/-- One of the two blocks of `waitingCallerToCallee` (lines 556-568 with
`what = "waitingCallers"`, lines 570-582 with `what = "missedCalls"`). -/
def sendSlice {CallerInfo WsClient : Type} (enc : CallerInfo → Except GoString GoString)
    (calleeID what : GoString) (slice : Option (List CallerInfo))
    (hubclient : Option WsClient) : Run WsClient Unit :=
  match slice with
  | none => { writes := [], printed := [], ret := () }
  | some items =>
    match jsonMarshal enc (some items) with
    | Except.error err =>
      { writes := []
        printed := ["# waitingCallerToCallee (".toList ++ calleeID
          ++ ") failed on json.Marshal err=".toList ++ err ++ "\n".toList]
        ret := () }
    | Except.ok jsonStr =>
      match hubclient with
      | none =>
        { writes := []
          printed := ["# waitingCallerToCallee cannot send ".toList ++ what ++ " (".toList
            ++ calleeID ++ ") hubclient==nil\n".toList]
          ret := () }
      | some client =>
        { writes := [(client, what ++ "|".toList ++ jsonStr)], printed := [], ret := () }

/-- The function `waitingCallerToCallee`, which has no result parameter. -/
def waitingCallerToCallee {CallerInfo WsClient : Type}
    (enc : CallerInfo → Except GoString GoString) (calleeID : GoString)
    (waitingCallerSlice missedCalls : Option (List CallerInfo))
    (hubclient : Option WsClient) : Run WsClient Unit :=
  let first := sendSlice enc calleeID "waitingCallers".toList waitingCallerSlice hubclient
  let second := sendSlice enc calleeID "missedCalls".toList missedCalls hubclient
  { writes := first.writes ++ second.writes
    printed := first.printed ++ second.printed
    ret := () }

/-! ## Connection ids (`getNewWsClientID`, lines 585-600) -/

/-- The function `getNewWsClientID` over the successive results of
`rand.Int63n(99999999999)`: `none` when every draw of the list was rejected, so that the
loop has not returned within the list. -/
def getNewWsClientID {WsClient : Type} (wsClientMap : Nat → Option WsClient) :
    List Nat → Option Nat
  | [] => none
  | intID :: rest =>
    if intID < 10000000000 then getNewWsClientID wsClientMap rest
    else if (wsClientMap intID).isSome = true then getNewWsClientID wsClientMap rest
    else some intID

/-! ## Concrete data used in the examples -/

/-- A store with the single record `alice&hashedpw1 ↦ {alice, hashedpw1}`. -/
def aliceStore : KV := fun k =>
  if k = "alice&hashedpw1".toList then
    some { CalleeId := "alice".toList, Pw := "hashedpw1".toList }
  else none

/-- A request with the cookie `webcallid=alice&hashedpw1` and the given referer. -/
def aliceCookieRequest (referer : GoString) : Request :=
  { referer := referer, idArg := none,
    cookies := [("webcallid".toList, "alice&hashedpw1".toList)] }

/-- A request with the single cookie `webcallid=value` and no referer. -/
def cookieOnlyRequest (value : GoString) : Request :=
  { referer := [], idArg := none, cookies := [("webcallid".toList, value)] }

/-- A store whose only record sits under the key `&h` and belongs to `alice`. -/
def emptyPrefixStore : KV := fun k =>
  if k = "&h".toList then some { CalleeId := "alice".toList, Pw := "p".toList } else none

/-- A store whose only record sits under the key `alice&h` and belongs to `bob`. -/
def foreignRecordStore : KV := fun k =>
  if k = "alice&h".toList then some { CalleeId := "bob".toList, Pw := "p".toList } else none

/-- A request with an `id` argument that is present but empty (`?id=`), no cookie, and the
given referer. -/
def emptyIdRequest (referer : GoString) : Request :=
  { referer := referer, idArg := some [], cookies := [] }

set_option maxRecDepth 100000

/-! ## Facts about `Index` with a one-character separator -/

theorem Index_single_cons (a x : Char) (t : GoString) :
    Index (x :: t) [a] = if a = x then 0 else if Index t [a] < 0 then -1 else Index t [a] + 1 := by
  by_cases h : a = x
  · simp [Index, List.isPrefixOf, h]
  · simp [Index, List.isPrefixOf, h]

theorem Index_single_nil (a : Char) : Index [] [a] = -1 := by
  simp [Index, List.isPrefixOf]

theorem Index_single_ge (a : Char) (s : GoString) : -1 ≤ Index s [a] := by
  induction s with
  | nil => simp [Index_single_nil]
  | cons x t ih =>
    rw [Index_single_cons]
    split_ifs <;> omega

theorem Index_single_neg_iff (a : Char) (s : GoString) : Index s [a] < 0 ↔ a ∉ s := by
  induction s with
  | nil => simp [Index_single_nil]
  | cons x t ih =>
    rw [Index_single_cons]
    have hge := Index_single_ge a t
    by_cases h : a = x
    · simp [h]
    · by_cases ht : Index t [a] < 0
      · simp [h, ht, ih.mp ht]
      · have hin : a ∈ t := by
          by_contra hn
          exact ht (ih.mpr hn)
        simp [h, ht, hin]
        omega

theorem Index_single_append (a : Char) (c h : GoString) (hc : a ∉ c) :
    Index (c ++ a :: h) [a] = (c.length : Int) := by
  induction c with
  | nil => simp [Index_single_cons]
  | cons x t ih =>
    have hx : a ≠ x := fun e => hc (by simp [e])
    have ht : a ∉ t := fun e => hc (by simp [e])
    have := ih ht
    simp only [List.cons_append, Index_single_cons, if_neg hx, this]
    have hnn : ¬ ((t.length : Int) < 0) := by omega
    simp [hnn]

theorem cookie_index_nonneg (c h : GoString) (hc : '&' ∉ c) :
    ¬ Index (c ++ '&' :: h) "&".toList < 0 := by
  have h1 : Index (c ++ '&' :: h) "&".toList = (c.length : Int) :=
    Index_single_append '&' c h hc
  rw [h1]
  omega

theorem cookie_prefix (c h : GoString) (hc : '&' ∉ c) :
    (c ++ '&' :: h).take (Index (c ++ '&' :: h) "&".toList).toNat = c := by
  have h1 : Index (c ++ '&' :: h) "&".toList = (c.length : Int) :=
    Index_single_append '&' c h hc
  rw [h1]
  simp

/-! ## Session resolution: what `resolveCookie` does on each kind of cookie -/

theorem resolveCookie_no_separator (kv : KV) (urlID calleeID v : GoString) (hv : '&' ∉ v) :
    resolveCookie kv urlID calleeID (some v)
      = { calleeID := calleeID, urlID := urlID, cookie := none, pw := [], gets := [] } := by
  have h1 : Index v "&".toList < 0 := (Index_single_neg_iff '&' v).mpr hv
  simp only [resolveCookie, h1, if_true]

theorem resolveCookie_empty_prefix (kv : KV) (urlID calleeID h : GoString)
    (hne : calleeID ≠ []) :
    resolveCookie kv urlID calleeID (some ('&' :: h))
      = { calleeID := calleeID, urlID := urlID, cookie := none, pw := [], gets := [] } := by
  have h0 := cookie_index_nonneg [] h (by simp)
  have h1 := cookie_prefix [] h (by simp)
  simp only [List.nil_append] at h0 h1
  simp only [resolveCookie, h0, h1, if_false]
  simp [hne]

theorem resolveCookie_prefix (kv : KV) (urlID calleeID c h : GoString) (hc : '&' ∉ c)
    (hne : c ≠ []) :
    resolveCookie kv urlID calleeID (some (c ++ '&' :: h))
      = match kv (c ++ '&' :: h) with
        | none => { calleeID := c, urlID := urlID, cookie := none, pw := [],
                    gets := [c ++ '&' :: h] }
        | some pwIdCombo =>
          if pwIdCombo.CalleeId ≠ c then
            { calleeID := c, urlID := urlID, cookie := none, pw := [],
              gets := [c ++ '&' :: h] }
          else if pwIdCombo.Pw = [] then
            { calleeID := c, urlID := urlID, cookie := none, pw := [],
              gets := [c ++ '&' :: h] }
          else
            { calleeID := c, urlID := urlID, cookie := some (c ++ '&' :: h),
              pw := pwIdCombo.Pw, gets := [c ++ '&' :: h] } := by
  have h0 := cookie_index_nonneg c h hc
  have h1 := cookie_prefix c h hc
  simp only [resolveCookie, h0, h1, hne, KV.Get]
  cases kv (c ++ '&' :: h) <;> simp [hne]

/-- Every run of `resolveCookie` ends either with the cookie rejected and an empty pw, or
with the cookie kept, after a successful lookup of its full value. -/
theorem resolveCookie_cases (kv : KV) (urlID calleeID : GoString) (cookie : Option GoString) :
    ((resolveCookie kv urlID calleeID cookie).cookie = none
      ∧ (resolveCookie kv urlID calleeID cookie).pw = [])
    ∨ ∃ v rec, cookie = some v ∧ kv v = some rec
        ∧ (resolveCookie kv urlID calleeID cookie).cookie = some v
        ∧ (resolveCookie kv urlID calleeID cookie).pw = rec.Pw ∧ rec.Pw ≠ []
        ∧ (resolveCookie kv urlID calleeID cookie).gets = [v]
        ∧ ((resolveCookie kv urlID calleeID cookie).calleeID ≠ [] →
            rec.CalleeId = (resolveCookie kv urlID calleeID cookie).calleeID) := by
  cases cookie with
  | none => left; exact ⟨rfl, rfl⟩
  | some v =>
    unfold resolveCookie
    simp only [KV.Get]
    by_cases h1 : Index v "&".toList < 0
    · rw [if_pos h1]
      left; exact ⟨rfl, rfl⟩
    · rw [if_neg h1]
      generalize (if List.take (Index v "&".toList).toNat v ≠ [] then
        List.take (Index v "&".toList).toNat v else calleeID) = cid
      generalize List.take (Index v "&".toList).toNat v = cfc
      by_cases h2 : cid ≠ [] ∧ cid ≠ cfc
      · rw [if_pos h2]
        left; exact ⟨rfl, rfl⟩
      · rw [if_neg h2]
        cases hk : kv v with
        | none => left; exact ⟨rfl, rfl⟩
        | some rec =>
          simp only
          by_cases h3 : cid ≠ [] ∧ rec.CalleeId ≠ cid
          · rw [if_pos h3]
            left; exact ⟨rfl, rfl⟩
          · rw [if_neg h3]
            by_cases h4 : rec.Pw = []
            · rw [if_pos h4]
              left; exact ⟨rfl, rfl⟩
            · rw [if_neg h4]
              right
              refine ⟨v, rec, rfl, hk, rfl, rfl, h4, rfl, ?_⟩
              intro hne
              by_contra hd
              exact h3 ⟨hne, hd⟩

/-- A run of `resolveCookie` looks up nothing, or the full cookie value once. -/
theorem resolveCookie_gets (kv : KV) (urlID calleeID v : GoString) :
    (resolveCookie kv urlID calleeID (some v)).gets = []
    ∨ (resolveCookie kv urlID calleeID (some v)).gets = [v] := by
  unfold resolveCookie
  simp only [KV.Get]
  by_cases h1 : Index v "&".toList < 0
  · rw [if_pos h1]
    left; rfl
  · rw [if_neg h1]
    generalize (if List.take (Index v "&".toList).toNat v ≠ [] then
      List.take (Index v "&".toList).toNat v else calleeID) = cid
    generalize List.take (Index v "&".toList).toNat v = cfc
    by_cases h2 : cid ≠ [] ∧ cid ≠ cfc
    · rw [if_pos h2]
      left; rfl
    · rw [if_neg h2]
      right
      cases kv v with
      | none => rfl
      | some rec =>
        simp only
        split_ifs <;> rfl

/-- The resolution hands on the `urlID` computed from the `id` argument and the referer. -/
theorem sessionResolution_urlID (lower : Char → Char) (kv : KV) (r : Request) :
    (sessionResolution lower kv r).urlID = urlIDOf lower r.idArg (refererPath r.referer) := by
  unfold sessionResolution resolveCookie
  simp only [KV.Get]
  repeat' split
  all_goals rfl

/-- The logout branch computes the same cookie name as the session resolution. -/
theorem logoutCookieName_eq (urlID : GoString) : logoutCookieName urlID = cookieNameOf urlID := by
  unfold logoutCookieName cookieNameOf
  cases urlID with
  | nil => decide
  | cons x t => simp

/-! ## Session resolution: the claims -/

/-- C1, as stated, fails: with referer `/callee/bob` and the cookie `alice&hashedpw1`
stored under that key, the provisional calleeID is `bob`, yet the resolution ends with
calleeID `alice`, pw `hashedpw1` and the cookie kept. -/
theorem foreign_identity_counterexample :
    calleeIDFromReferer Char.toLower (refererPath "/callee/bob".toList) = "bob".toList
    ∧ (aliceCookieRequest "/callee/bob".toList).Cookie "webcallid".toList
        = some ("alice".toList ++ '&' :: "hashedpw1".toList)
    ∧ sessionResolution Char.toLower aliceStore (aliceCookieRequest "/callee/bob".toList)
        = { calleeID := "alice".toList, urlID := [], cookie := some "alice&hashedpw1".toList,
            pw := "hashedpw1".toList, gets := ["alice&hashedpw1".toList] } := by
  decide

/-- C1, amended: when the referer yields a non-empty provisional calleeID `rr` and the
selected cookie is `c&h`, an empty `c` ends with the cookie rejected, an empty pw, calleeID
`rr` and no store lookup, and a non-empty `c` ends with calleeID `c`: the cookie prefix
overrides the referer. -/
theorem foreign_identity_resolution (lower : Char → Char) (kv : KV) (r : Request)
    (rr c h : GoString) (hc : '&' ∉ c)
    (hr : calleeIDFromReferer lower (refererPath r.referer) = rr) (hrr : rr ≠ [])
    (hcookie : r.Cookie (cookieNameOf (urlIDOf lower r.idArg (refererPath r.referer)))
      = some (c ++ '&' :: h)) :
    (c = [] → (sessionResolution lower kv r).cookie = none
        ∧ (sessionResolution lower kv r).pw = []
        ∧ (sessionResolution lower kv r).calleeID = rr
        ∧ (sessionResolution lower kv r).gets = [])
    ∧ (c ≠ [] → (sessionResolution lower kv r).calleeID = c) := by
  constructor
  · intro hce
    subst hce
    simp only [List.nil_append] at hcookie
    have hs : sessionResolution lower kv r
        = { calleeID := rr, urlID := urlIDOf lower r.idArg (refererPath r.referer),
            cookie := none, pw := [], gets := [] } := by
      simp only [sessionResolution, hcookie, hr, resolveCookie_empty_prefix kv _ rr h hrr]
    rw [hs]
    exact ⟨rfl, rfl, rfl, rfl⟩
  · intro hne
    simp only [sessionResolution, hcookie, resolveCookie_prefix kv _ _ c h hc hne]
    cases kv (c ++ '&' :: h) with
    | none => rfl
    | some rec =>
      simp only
      split_ifs <;> rfl

/-- Witness for C1 amended: referer `/callee/bob` with the cookie `alice&hashedpw1`. -/
theorem foreign_identity_resolution_witness :
    ('&' ∉ "alice".toList ∧ "bob".toList ≠ [])
    ∧ (sessionResolution Char.toLower aliceStore
        (aliceCookieRequest "/callee/bob".toList)).calleeID = "alice".toList :=
  ⟨by decide,
   (foreign_identity_resolution Char.toLower aliceStore
      (aliceCookieRequest "/callee/bob".toList) "bob".toList "alice".toList
      "hashedpw1".toList (by decide) (by decide) (by decide) (by decide)).2 (by decide)⟩

/-- C2: a non-empty lower-case calleeID `c` without `&`, `?` or a final `/`, a cookie
`c&h` whose key holds the record `{c, p}` with `p` non-empty, and a referer ending in
`/callee/c` resolve to calleeID `c`, pw `p` and a valid cookie. -/
theorem authenticated_resolution (lower : Char → Char) (kv : KV) (r : Request)
    (c h p pre : GoString) (hne : c ≠ []) (_hlow : ToLower lower c = c) (hamp : '&' ∉ c)
    (_hq : '?' ∉ c) (_hslash : HasSuffix c "/".toList = false) (hp : p ≠ [])
    (hcookie : r.Cookie (cookieNameOf (urlIDOf lower r.idArg (refererPath r.referer)))
      = some (c ++ '&' :: h))
    (hstore : kv (c ++ '&' :: h) = some { CalleeId := c, Pw := p })
    (_href : r.referer = pre ++ "/callee/".toList ++ c) :
    (sessionResolution lower kv r).calleeID = c
    ∧ (sessionResolution lower kv r).pw = p
    ∧ (sessionResolution lower kv r).cookie = some (c ++ '&' :: h)
    ∧ (sessionResolution lower kv r).cookieValid = true := by
  simp only [sessionResolution, Session.cookieValid, hcookie,
    resolveCookie_prefix kv _ _ c h hamp hne, hstore]
  simp [hp]

/-- Witness for C2: cookie `alice&hashedpw1`, record `{alice, hashedpw1}`, referer
`/callee/alice`. -/
theorem authenticated_resolution_witness :
    ("alice".toList ≠ [] ∧ ToLower Char.toLower "alice".toList = "alice".toList
      ∧ aliceStore ("alice".toList ++ '&' :: "hashedpw1".toList)
          = some { CalleeId := "alice".toList, Pw := "hashedpw1".toList })
    ∧ (sessionResolution Char.toLower aliceStore
          (aliceCookieRequest "/callee/alice".toList)).calleeID = "alice".toList
    ∧ (sessionResolution Char.toLower aliceStore
          (aliceCookieRequest "/callee/alice".toList)).pw = "hashedpw1".toList
    ∧ (sessionResolution Char.toLower aliceStore
          (aliceCookieRequest "/callee/alice".toList)).cookie
        = some ("alice".toList ++ '&' :: "hashedpw1".toList)
    ∧ (sessionResolution Char.toLower aliceStore
          (aliceCookieRequest "/callee/alice".toList)).cookieValid = true :=
  ⟨by decide,
   authenticated_resolution Char.toLower aliceStore
      (aliceCookieRequest "/callee/alice".toList) "alice".toList "hashedpw1".toList
      "hashedpw1".toList [] (by decide) (by decide) (by decide) (by decide) (by decide)
      (by decide) (by decide) (by decide) (by decide)⟩

/-- C3: a selected cookie whose value has no `&` ends with the cookie rejected, an empty
pw, the calleeID exactly as derived from the referer, and no `Get` on the store. -/
theorem cookie_without_separator (lower : Char → Char) (kv : KV) (r : Request)
    (v : GoString) (hv : '&' ∉ v)
    (hcookie : r.Cookie (cookieNameOf (urlIDOf lower r.idArg (refererPath r.referer)))
      = some v) :
    (sessionResolution lower kv r).cookie = none
    ∧ (sessionResolution lower kv r).cookieValid = false
    ∧ (sessionResolution lower kv r).pw = []
    ∧ (sessionResolution lower kv r).calleeID
        = calleeIDFromReferer lower (refererPath r.referer)
    ∧ (sessionResolution lower kv r).gets = [] := by
  have hs : sessionResolution lower kv r
      = { calleeID := calleeIDFromReferer lower (refererPath r.referer),
          urlID := urlIDOf lower r.idArg (refererPath r.referer),
          cookie := none, pw := [], gets := [] } := by
    simp only [sessionResolution, hcookie, resolveCookie_no_separator kv _ _ v hv]
  rw [hs]
  exact ⟨rfl, rfl, rfl, rfl, rfl⟩

/-- Witness for C3: the cookie value `garbage`, against a store that holds a record
under that very key. -/
theorem cookie_without_separator_witness :
    '&' ∉ "garbage".toList
    ∧ (sessionResolution Char.toLower
          (fun _ => some { CalleeId := "garbage".toList, Pw := "p".toList })
          (cookieOnlyRequest "garbage".toList)).cookieValid = false
    ∧ (sessionResolution Char.toLower
          (fun _ => some { CalleeId := "garbage".toList, Pw := "p".toList })
          (cookieOnlyRequest "garbage".toList)).gets = [] :=
  have h := cookie_without_separator Char.toLower
    (fun _ => some { CalleeId := "garbage".toList, Pw := "p".toList })
    (cookieOnlyRequest "garbage".toList) "garbage".toList (by decide) (by decide)
  ⟨by decide, h.2.1, h.2.2.2.2⟩

/-- C4, as stated, fails for the empty calleeID: the cookie `&h` with no referer reaches
the lookup, the store returns a record of `alice` under `&h`, the resolved calleeID is
empty and so differs from `alice`, yet the cookie is kept and pw is `p`. -/
theorem store_record_identity_counterexample :
    emptyPrefixStore "&h".toList = some { CalleeId := "alice".toList, Pw := "p".toList }
    ∧ sessionResolution Char.toLower emptyPrefixStore (cookieOnlyRequest "&h".toList)
        = { calleeID := [], urlID := [], cookie := some "&h".toList, pw := "p".toList,
            gets := ["&h".toList] } := by
  decide

/-- C4, amended: when the resolution looks up the cookie value, the store returns a record
under it, the resolved calleeID is not empty and the record's CalleeId differs from it,
the cookie is invalidated and pw is empty. -/
theorem store_record_identity (lower : Char → Char) (kv : KV) (r : Request)
    (v : GoString) (rec : PwIdCombo)
    (hcookie : r.Cookie (cookieNameOf (urlIDOf lower r.idArg (refererPath r.referer)))
      = some v)
    (_hreach : (sessionResolution lower kv r).gets = [v])
    (hrec : kv v = some rec)
    (hne : (sessionResolution lower kv r).calleeID ≠ [])
    (hdiff : rec.CalleeId ≠ (sessionResolution lower kv r).calleeID) :
    (sessionResolution lower kv r).cookie = none
    ∧ (sessionResolution lower kv r).cookieValid = false
    ∧ (sessionResolution lower kv r).pw = [] := by
  unfold Session.cookieValid
  unfold sessionResolution at hne hdiff ⊢
  simp only [hcookie] at hne hdiff ⊢
  rcases resolveCookie_cases kv (urlIDOf lower r.idArg (refererPath r.referer))
    (calleeIDFromReferer lower (refererPath r.referer)) (some v) with h | h
  · exact ⟨h.1, by rw [h.1]; rfl, h.2⟩
  · obtain ⟨w, rec2, hw, hk, _, _, _, _, hid⟩ := h
    have hwv : w = v := (Option.some.inj hw).symm
    subst hwv
    rw [hrec] at hk
    have hrr : rec2 = rec := (Option.some.inj hk).symm
    subst hrr
    exact absurd (hid hne) hdiff

/-- Witness for C4 amended: the cookie `alice&h` against a store that holds a record of
`bob` under that key. -/
theorem store_record_identity_witness :
    (foreignRecordStore "alice&h".toList
        = some { CalleeId := "bob".toList, Pw := "p".toList }
      ∧ (sessionResolution Char.toLower foreignRecordStore
          (cookieOnlyRequest "alice&h".toList)).gets = ["alice&h".toList])
    ∧ (sessionResolution Char.toLower foreignRecordStore
          (cookieOnlyRequest "alice&h".toList)).cookie = none
    ∧ (sessionResolution Char.toLower foreignRecordStore
          (cookieOnlyRequest "alice&h".toList)).cookieValid = false
    ∧ (sessionResolution Char.toLower foreignRecordStore
          (cookieOnlyRequest "alice&h".toList)).pw = [] :=
  ⟨by decide,
   store_record_identity Char.toLower foreignRecordStore
      (cookieOnlyRequest "alice&h".toList) "alice&h".toList
      { CalleeId := "bob".toList, Pw := "p".toList }
      (by decide) (by decide) (by decide) (by decide) (by decide)⟩

/-- C5: for every request and every store, a rejected cookie comes with an empty pw, a
kept cookie comes with a non-empty pw that is the Pw of the record stored under the full
cookie value, and so pw is non-empty exactly when the cookie is valid. -/
theorem failure_semantics (lower : Char → Char) (kv : KV) (r : Request) :
    ((sessionResolution lower kv r).cookieValid = false →
        (sessionResolution lower kv r).pw = [])
    ∧ ((sessionResolution lower kv r).cookieValid = true →
        (sessionResolution lower kv r).pw ≠ []
        ∧ ∃ v rec, r.Cookie (cookieNameOf (sessionResolution lower kv r).urlID) = some v
            ∧ (sessionResolution lower kv r).cookie = some v
            ∧ kv v = some rec ∧ (sessionResolution lower kv r).pw = rec.Pw)
    ∧ ((sessionResolution lower kv r).pw ≠ [] ↔
        (sessionResolution lower kv r).cookieValid = true) := by
  rw [sessionResolution_urlID]
  unfold Session.cookieValid
  unfold sessionResolution
  simp only
  rcases resolveCookie_cases kv (urlIDOf lower r.idArg (refererPath r.referer))
    (calleeIDFromReferer lower (refererPath r.referer))
    (r.Cookie (cookieNameOf (urlIDOf lower r.idArg (refererPath r.referer)))) with h | h
  · rw [h.1, h.2]
    simp
  · obtain ⟨w, rec, hw, hk, hc, hp, hpne, _, _⟩ := h
    rw [hc, hp]
    simp only [Option.isSome_some, ne_eq, hpne, not_false_eq_true, true_and, iff_true,
      implies_true, and_true, forall_const, reduceCtorEq, false_implies]
    exact ⟨w, rec, hw, rfl, hk, rfl⟩

/-- C10 fails on the code at the cookie `Alice&x`: the calleeID handed to the handlers is
`Alice`, which is not its own lower-casing, while the same name in the referer path is
lower-cased to `alice`. -/
theorem calleeID_from_cookie_not_lowered :
    (sessionResolution Char.toLower (fun _ => none)
        (cookieOnlyRequest "Alice&x".toList)).calleeID = "Alice".toList
    ∧ ToLower Char.toLower "Alice".toList ≠ "Alice".toList
    ∧ (sessionResolution Char.toLower (fun _ => none)
        { referer := "/callee/Alice".toList, idArg := none, cookies := [] }).calleeID
        = "alice".toList := by
  decide

/-! ## Connection ids -/

/-- One turn of the loop of `getNewWsClientID`. -/
theorem getNewWsClientID_cons {WsClient : Type} (wsClientMap : Nat → Option WsClient)
    (x : Nat) (t : List Nat) :
    getNewWsClientID wsClientMap (x :: t)
      = if x < 10000000000 then getNewWsClientID wsClientMap t
        else if (wsClientMap x).isSome = true then getNewWsClientID wsClientMap t
        else some x := rfl

/-- C6: over draws below 99999999999, `getNewWsClientID` returns `id` exactly when `id` is
the first draw that is at least 10000000000 and not a key of `wsClientMap`; the returned
id then lies in the range, and every earlier draw was below the floor or already a key. -/
theorem getNewWsClientID_first_accepted {WsClient : Type}
    (wsClientMap : Nat → Option WsClient) (draws : List Nat)
    (hd : ∀ d ∈ draws, d < 99999999999) (id : Nat) :
    getNewWsClientID wsClientMap draws = some id ↔
      ∃ k, draws[k]? = some id ∧ 10000000000 ≤ id ∧ id < 99999999999
        ∧ wsClientMap id = none
        ∧ ∀ j d : Nat, j < k → draws[j]? = some d →
            d < 10000000000 ∨ (wsClientMap d).isSome = true := by
  induction draws with
  | nil => simp [getNewWsClientID]
  | cons x t ih =>
    have hx : x < 99999999999 := hd x (by simp)
    have ht : ∀ d ∈ t, d < 99999999999 := fun d hm => hd d (by simp [hm])
    have ih2 := ih ht
    have hrej : (x < 10000000000 ∨ (wsClientMap x).isSome = true) →
        (getNewWsClientID wsClientMap (x :: t) = getNewWsClientID wsClientMap t) := by
      intro h
      rw [getNewWsClientID_cons]
      rcases h with h | h
      · rw [if_pos h]
      · by_cases hl : x < 10000000000
        · rw [if_pos hl]
        · rw [if_neg hl, if_pos h]
    by_cases hr : x < 10000000000 ∨ (wsClientMap x).isSome = true
    · rw [hrej hr, ih2]
      constructor
      · rintro ⟨k, hk, h1, h2, h3, h4⟩
        refine ⟨k + 1, by simpa using hk, h1, h2, h3, ?_⟩
        intro j d hj hjd
        cases j with
        | zero =>
          simp at hjd
          subst hjd
          exact hr
        | succ j =>
          simp at hjd
          exact h4 j d (by omega) hjd
      · rintro ⟨k, hk, h1, h2, h3, h4⟩
        cases k with
        | zero =>
          simp at hk
          subst hk
          rcases hr with h | h
          · omega
          · rw [h3] at h
            simp at h
        | succ k =>
          refine ⟨k, by simpa using hk, h1, h2, h3, ?_⟩
          intro j d hj hjd
          exact h4 (j + 1) d (by omega) (by simpa using hjd)
    · have hacc : getNewWsClientID wsClientMap (x :: t) = some x := by
        rw [getNewWsClientID_cons]
        have h1 : ¬ x < 10000000000 := fun h => hr (Or.inl h)
        have h2 : ¬ (wsClientMap x).isSome = true := fun h => hr (Or.inr h)
        rw [if_neg h1, if_neg h2]
      rw [hacc]
      constructor
      · intro he
        have hxi : x = id := Option.some.inj he
        subst hxi
        refine ⟨0, by simp, by omega, hx, ?_, ?_⟩
        · cases hm : wsClientMap x with
          | none => rfl
          | some c => exact absurd (by simp [hm]) (fun h => hr (Or.inr h))
        · intro j d hj
          omega
      · rintro ⟨k, hk, _, _, _, h4⟩
        cases k with
        | zero =>
          simp at hk
          rw [hk]
        | succ k =>
          exact absurd (h4 0 x (by omega) (by simp)) hr

/-- Witness for C6: the draws 5 (below the floor), 20000000000 (already a key),
30000000000 and 40000000000 give 30000000000. -/
theorem getNewWsClientID_first_accepted_witness :
    (∀ d ∈ [5, 20000000000, 30000000000, 40000000000], d < 99999999999)
    ∧ getNewWsClientID (fun n => if n = 20000000000 then some () else none)
        [5, 20000000000, 30000000000, 40000000000] = some 30000000000
    ∧ ∃ k, [5, 20000000000, 30000000000, 40000000000][k]? = some 30000000000
        ∧ 10000000000 ≤ 30000000000 ∧ 30000000000 < 99999999999
        ∧ (fun n => if n = 20000000000 then some () else none) 30000000000 = none
        ∧ ∀ j d : Nat, j < k → [5, 20000000000, 30000000000, 40000000000][j]? = some d →
            d < 10000000000
            ∨ ((fun n => if n = 20000000000 then some () else none) d).isSome = true :=
  ⟨by decide, by decide,
   (getNewWsClientID_first_accepted (fun n => if n = 20000000000 then some () else none)
      [5, 20000000000, 30000000000, 40000000000] (by decide) 30000000000).mp (by decide)⟩

/-! ## Notification push -/

/-- A nil slice is skipped: no `Write` and no log line. -/
theorem sendSlice_nil {CallerInfo WsClient : Type}
    (enc : CallerInfo → Except GoString GoString) (calleeID what : GoString)
    (hubclient : Option WsClient) :
    sendSlice enc calleeID what none hubclient = { writes := [], printed := [], ret := () } :=
  rfl

/-- Every frame written for a slice starts with its tag and the separator. -/
theorem sendSlice_writes_tag {CallerInfo WsClient : Type}
    (enc : CallerInfo → Except GoString GoString) (calleeID what : GoString)
    (slice : Option (List CallerInfo)) (hubclient : Option WsClient) :
    ∀ f ∈ (sendSlice enc calleeID what slice hubclient).writes,
      (what ++ "|".toList) <+: f.2 := by
  intro f hf
  cases slice with
  | none => simp [sendSlice] at hf
  | some items =>
    unfold sendSlice at hf
    simp only at hf
    cases hm : jsonMarshal enc (some items) with
    | error e =>
      rw [hm] at hf
      simp at hf
    | ok jsonStr =>
      rw [hm] at hf
      cases hubclient with
      | none => simp at hf
      | some client =>
        simp only [List.mem_singleton] at hf
        subst hf
        exact List.prefix_append _ _

/-- Without a hub client no slice is written. -/
theorem sendSlice_no_client {CallerInfo WsClient : Type}
    (enc : CallerInfo → Except GoString GoString) (calleeID what : GoString)
    (slice : Option (List CallerInfo)) :
    (sendSlice enc calleeID what slice (none : Option WsClient)).writes = [] := by
  cases slice with
  | none => rfl
  | some items =>
    unfold sendSlice
    simp only
    cases jsonMarshal enc (some items) <;> rfl

/-- C7, as stated, fails for a non-nil list of length zero: with a bound client the two
empty lists are pushed as the frames `waitingCallers|[]` and `missedCalls|[]`. -/
theorem empty_backlog_counterexample :
    (waitingCallerToCallee (fun (_ : Nat) => Except.ok "1".toList) "alice".toList
        (some []) (some []) (some 7)).writes
      = [(7, "waitingCallers|[]".toList), (7, "missedCalls|[]".toList)] := by
  decide

/-- C7, amended: a nil list causes no `Write` (with the waiting-caller list nil every frame
written is a `missedCalls` frame, with the missed-calls list nil every frame is a
`waitingCallers` frame, with both nil nothing is written), for every hub client; a non-nil
list of length zero is pushed to a bound client as the frame with the payload `[]`. -/
theorem nil_backlog_no_write {CallerInfo WsClient : Type}
    (enc : CallerInfo → Except GoString GoString) (calleeID : GoString)
    (other : Option (List CallerInfo)) (hubclient : Option WsClient) :
    (∀ f ∈ (waitingCallerToCallee enc calleeID none other hubclient).writes,
        "missedCalls|".toList <+: f.2)
    ∧ (∀ f ∈ (waitingCallerToCallee enc calleeID other none hubclient).writes,
        "waitingCallers|".toList <+: f.2)
    ∧ (waitingCallerToCallee enc calleeID none none hubclient).writes = []
    ∧ ∀ client : WsClient,
        (waitingCallerToCallee enc calleeID (some []) (some []) (some client)).writes
          = [(client, "waitingCallers|[]".toList), (client, "missedCalls|[]".toList)] := by
  refine ⟨?_, ?_, rfl, fun client => rfl⟩
  · intro f hf
    simp only [waitingCallerToCallee, sendSlice_nil, List.nil_append] at hf
    exact sendSlice_writes_tag enc calleeID "missedCalls".toList other hubclient f hf
  · intro f hf
    simp only [waitingCallerToCallee, sendSlice_nil, List.append_nil] at hf
    exact sendSlice_writes_tag enc calleeID "waitingCallers".toList other hubclient f hf

/-- C8, as stated, fails: with no hub client nothing is written, but the call hands the
same (empty) result to its caller as the call that delivers the frame. -/
theorem delivery_failure_counterexample :
    (waitingCallerToCallee (fun (_ : Nat) => Except.ok "1".toList) "alice".toList
        (some [0]) none (none : Option Nat)).writes = []
    ∧ (waitingCallerToCallee (fun (_ : Nat) => Except.ok "1".toList) "alice".toList
        (some [0]) none (some 7)).writes = [(7, "waitingCallers|[1]".toList)]
    ∧ (waitingCallerToCallee (fun (_ : Nat) => Except.ok "1".toList) "alice".toList
        (some [0]) none (none : Option Nat)).ret
      = (waitingCallerToCallee (fun (_ : Nat) => Except.ok "1".toList) "alice".toList
        (some [0]) none (some 7)).ret := by
  decide

/-- C8, amended: with no hub client the call performs no `Write` at all, and each non-nil
list that marshals is reported by a log line that names what could not be sent. -/
theorem delivery_failure_logged {CallerInfo WsClient : Type}
    (enc : CallerInfo → Except GoString GoString) (calleeID : GoString)
    (waitingCallerSlice missedCalls : Option (List CallerInfo)) :
    (waitingCallerToCallee enc calleeID waitingCallerSlice missedCalls
        (none : Option WsClient)).writes = []
    ∧ (∀ items jsonStr, waitingCallerSlice = some items →
        jsonMarshal enc (some items) = Except.ok jsonStr →
        ("# waitingCallerToCallee cannot send ".toList ++ "waitingCallers".toList
          ++ " (".toList ++ calleeID ++ ") hubclient==nil\n".toList)
          ∈ (waitingCallerToCallee enc calleeID waitingCallerSlice missedCalls
              (none : Option WsClient)).printed)
    ∧ (∀ items jsonStr, missedCalls = some items →
        jsonMarshal enc (some items) = Except.ok jsonStr →
        ("# waitingCallerToCallee cannot send ".toList ++ "missedCalls".toList
          ++ " (".toList ++ calleeID ++ ") hubclient==nil\n".toList)
          ∈ (waitingCallerToCallee enc calleeID waitingCallerSlice missedCalls
              (none : Option WsClient)).printed) := by
  refine ⟨?_, ?_, ?_⟩
  · simp only [waitingCallerToCallee, sendSlice_no_client, List.append_nil]
  · intro items jsonStr hw hj
    subst hw
    simp only [waitingCallerToCallee, sendSlice, hj, List.mem_append, List.mem_singleton,
      true_or]
  · intro items jsonStr hm hj
    subst hm
    simp only [waitingCallerToCallee, sendSlice, hj, List.mem_append, List.mem_singleton,
      or_true]

/-! ## Logout -/

/-- A cookie whose full value has no record in the store is never kept. -/
theorem resolveCookie_unknown (kv : KV) (urlID calleeID v : GoString) (hk : kv v = none) :
    (resolveCookie kv urlID calleeID (some v)).cookie = none
    ∧ (resolveCookie kv urlID calleeID (some v)).pw = [] := by
  rcases resolveCookie_cases kv urlID calleeID (some v) with h | h
  · exact h
  · obtain ⟨w, rec, hw, hr, _⟩ := h
    have hwv : w = v := (Option.some.inj hw).symm
    subst hwv
    rw [hk] at hr
    exact absurd hr (by simp)

/-- C9: a `/logout` request that carries the selected cookie with value `v` leaves the
store without a record under `v` and with every other key unchanged, sets a cookie of the
same name with an empty value and an expiry before `now`, and a later request that
presents the value `v` resolves, against the resulting store, with the cookie rejected
and an empty pw. -/
theorem logout_clears_session (lower : Char → Char) (kv : KV) (r : Request) (now : Int)
    (v : GoString)
    (hcookie : r.Cookie (cookieNameOf (urlIDOf lower r.idArg (refererPath r.referer)))
      = some v) :
    (httpApiHandlerLogout lower kv r now).kvHashedPw v = none
    ∧ (∀ k, k ≠ v → (httpApiHandlerLogout lower kv r now).kvHashedPw k = kv k)
    ∧ (httpApiHandlerLogout lower kv r now).setCookie.Name
        = cookieNameOf (urlIDOf lower r.idArg (refererPath r.referer))
    ∧ (httpApiHandlerLogout lower kv r now).setCookie.Value = []
    ∧ (httpApiHandlerLogout lower kv r now).setCookie.Expires < now
    ∧ ∀ later : Request,
        later.Cookie (cookieNameOf (urlIDOf lower later.idArg (refererPath later.referer)))
          = some v →
        (sessionResolution lower (httpApiHandlerLogout lower kv r now).kvHashedPw
            later).cookieValid = false
        ∧ (sessionResolution lower (httpApiHandlerLogout lower kv r now).kvHashedPw
            later).pw = [] := by
  have hstore : (httpApiHandlerLogout lower kv r now).kvHashedPw
      = fun k => if k = v then none else kv k := by
    simp only [httpApiHandlerLogout, logoutBranch, sessionResolution_urlID,
      logoutCookieName_eq, hcookie, KV.Delete]
    split_ifs <;> rfl
  have hgone : (httpApiHandlerLogout lower kv r now).kvHashedPw v = none := by
    rw [hstore]
    simp
  refine ⟨hgone, ?_, ?_, rfl, ?_, ?_⟩
  · intro k hk
    rw [hstore]
    simp [hk]
  · simp only [httpApiHandlerLogout, logoutBranch, sessionResolution_urlID,
      logoutCookieName_eq]
  · simp only [httpApiHandlerLogout, logoutBranch, Hour]
    omega
  · intro later hlater
    have h := resolveCookie_unknown (httpApiHandlerLogout lower kv r now).kvHashedPw
      (urlIDOf lower later.idArg (refererPath later.referer))
      (calleeIDFromReferer lower (refererPath later.referer)) v hgone
    unfold Session.cookieValid
    unfold sessionResolution
    simp only [hlater]
    rw [h.1, h.2]
    exact ⟨rfl, rfl⟩

/-- Witness for C9: logging out with the cookie `alice&hashedpw1` at time 0. -/
theorem logout_clears_session_witness :
    (aliceCookieRequest []).Cookie "webcallid".toList = some "alice&hashedpw1".toList
    ∧ (httpApiHandlerLogout Char.toLower aliceStore (aliceCookieRequest []) 0).kvHashedPw
        "alice&hashedpw1".toList = none
    ∧ (httpApiHandlerLogout Char.toLower aliceStore (aliceCookieRequest [])
        0).setCookie.Expires < 0
    ∧ (sessionResolution Char.toLower
        (httpApiHandlerLogout Char.toLower aliceStore (aliceCookieRequest []) 0).kvHashedPw
        (aliceCookieRequest "/callee/alice".toList)).cookieValid = false :=
  have h := logout_clears_session Char.toLower aliceStore (aliceCookieRequest []) 0
    "alice&hashedpw1".toList (by decide)
  ⟨by decide, h.1, h.2.2.2.2.1,
   (h.2.2.2.2.2 (aliceCookieRequest "/callee/alice".toList) (by decide)).1⟩

/-! ## `urlID` -/

/-- What `Index` returns: `-1` when `substr` does not occur in `s`, else the length of the
text before its first occurrence. -/
theorem Index_spec (substr : GoString) (s : GoString) :
    (Index s substr = -1 ∧ ¬ substr <:+: s)
    ∨ ∃ pre post, s = pre ++ substr ++ post ∧ Index s substr = (pre.length : Int)
        ∧ ∀ pre2 post2, s = pre2 ++ substr ++ post2 → pre.length ≤ pre2.length := by
  induction s with
  | nil =>
    cases substr with
    | nil =>
      right
      exact ⟨[], [], rfl, by simp [Index], fun _ _ _ => Nat.zero_le _⟩
    | cons a l =>
      left
      exact ⟨by simp [Index, List.isPrefixOf], by simp⟩
  | cons c t ih =>
    by_cases hp : substr.isPrefixOf (c :: t) = true
    · right
      obtain ⟨post, hpost⟩ := List.isPrefixOf_iff_prefix.mp hp
      refine ⟨[], post, by simpa using hpost.symm, ?_, fun _ _ _ => Nat.zero_le _⟩
      simp only [Index, hp, if_true, List.length_nil, Nat.cast_zero]
    · have hnp : ¬ substr <+: c :: t := fun h => hp (List.isPrefixOf_iff_prefix.mpr h)
      have hidx : Index (c :: t) substr
          = if Index t substr < 0 then -1 else Index t substr + 1 := by
        simp only [Index, hp, Bool.false_eq_true, if_false]
      rcases ih with ⟨h1, h2⟩ | ⟨pre, post, h1, h2, h3⟩
      · left
        refine ⟨by rw [hidx, h1]; rfl, ?_⟩
        intro hin
        rcases List.infix_cons_iff.mp hin with h | h
        · exact hnp h
        · exact h2 h
      · right
        refine ⟨c :: pre, post, by simp [h1], ?_, ?_⟩
        · rw [hidx, h2]
          have : ¬ ((pre.length : Int) < 0) := by omega
          simp [this]
        · intro pre2 post2 he
          cases pre2 with
          | nil =>
            exact absurd ⟨post2, by simpa using he.symm⟩ hnp
          | cons x p2 =>
            simp only [List.cons_append, List.cons.injEq] at he
            have := h3 p2 post2 he.2
            simp only [List.length_cons]
            omega

/-- The index is non-negative exactly when `substr` occurs in `s`. -/
theorem Index_nonneg_iff (substr s : GoString) : 0 ≤ Index s substr ↔ substr <:+: s := by
  rcases Index_spec substr s with ⟨h1, h2⟩ | ⟨pre, post, h1, h2, _⟩
  · rw [h1]
    constructor
    · intro h
      omega
    · intro h
      exact absurd h h2
  · rw [h2]
    constructor
    · intro _
      exact ⟨pre, post, h1.symm⟩
    · intro _
      omega

/-- The slice `s[Index(s, substr)+len(substr):]` is the text after the first occurrence of
`substr`. -/
theorem drop_after_Index (substr s : GoString) (h : substr <:+: s) :
    ∃ pre, s = pre ++ substr ++ s.drop (Index s substr + (substr.length : Int)).toNat
      ∧ ∀ pre2 post2, s = pre2 ++ substr ++ post2 → pre.length ≤ pre2.length := by
  rcases Index_spec substr s with ⟨_, h2⟩ | ⟨pre, post, h1, h2, h3⟩
  · exact absurd h h2
  · refine ⟨pre, ?_, h3⟩
    rw [h2]
    have hn : ((pre.length : Int) + (substr.length : Int)).toNat
        = (pre ++ substr).length := by
      simp only [List.length_append]
      omega
    rw [hn]
    conv_lhs => rw [h1]
    conv_rhs => rw [h1]
    rw [List.drop_left]

/-- C11, as stated, fails when the `id` parameter is present with an empty first value:
with the referer `/user/Bob` the code gives urlID `Bob`, not the lower-casing of the empty
value. -/
theorem urlID_empty_id_counterexample :
    (emptyIdRequest "/user/Bob".toList).idArg = some []
    ∧ ToLower Char.toLower [] = []
    ∧ (sessionResolution Char.toLower (fun _ => none)
        (emptyIdRequest "/user/Bob".toList)).urlID = "Bob".toList := by
  decide

/-- C11, amended: when the `id` parameter is present with a non-empty first value, urlID is
the lower-casing of that value; when it is absent or its first value is empty, urlID is
the text after the first `/user/` of the referer path if that path contains `/user/` and
does not end in `/`, else the text after the first `/button/` if the path contains
`/button/` and does not end in `/`, else empty; the referer text is taken verbatim. -/
theorem urlID_extraction (lower : Char → Char) (kv : KV) (r : Request) :
    (∀ a, r.idArg = some a → a ≠ [] →
        (sessionResolution lower kv r).urlID = ToLower lower a)
    ∧ ((r.idArg = none ∨ r.idArg = some []) →
        ((("/user/".toList <:+: refererPath r.referer
            ∧ HasSuffix (refererPath r.referer) "/".toList = false) →
          ∃ pre, refererPath r.referer
              = pre ++ "/user/".toList ++ (sessionResolution lower kv r).urlID
            ∧ ∀ pre2 post2, refererPath r.referer = pre2 ++ "/user/".toList ++ post2 →
                pre.length ≤ pre2.length)
        ∧ (¬ ("/user/".toList <:+: refererPath r.referer
              ∧ HasSuffix (refererPath r.referer) "/".toList = false) →
            ("/button/".toList <:+: refererPath r.referer
              ∧ HasSuffix (refererPath r.referer) "/".toList = false) →
          ∃ pre, refererPath r.referer
              = pre ++ "/button/".toList ++ (sessionResolution lower kv r).urlID
            ∧ ∀ pre2 post2, refererPath r.referer = pre2 ++ "/button/".toList ++ post2 →
                pre.length ≤ pre2.length)
        ∧ (¬ ("/user/".toList <:+: refererPath r.referer
              ∧ HasSuffix (refererPath r.referer) "/".toList = false) →
            ¬ ("/button/".toList <:+: refererPath r.referer
              ∧ HasSuffix (refererPath r.referer) "/".toList = false) →
            (sessionResolution lower kv r).urlID = []))) := by
  rw [sessionResolution_urlID]
  generalize refererPath r.referer = ref
  constructor
  · intro a ha hne
    have hl : a.length > 0 := List.length_pos.mpr hne
    simp only [urlIDOf, ha, hl, if_true]
  · intro hid
    have hu : urlIDOf lower r.idArg ref = urlIDFromReferer ref := by
      rcases hid with h | h
      · simp only [urlIDOf, h]
      · simp [urlIDOf, h]
    rw [hu]
    have hcond : ∀ sep : GoString,
        (Index ref sep ≥ 0 ∧ ¬ HasSuffix ref "/".toList = true)
          ↔ (sep <:+: ref ∧ HasSuffix ref "/".toList = false) := by
      intro sep
      rw [ge_iff_le, Index_nonneg_iff, Bool.not_eq_true]
    refine ⟨?_, ?_, ?_⟩
    · intro hc
      have h1 : urlIDFromReferer ref
          = ref.drop (Index ref "/user/".toList + 6).toNat := by
        unfold urlIDFromReferer
        simp only
        rw [if_pos ((hcond _).mpr hc)]
      rw [h1]
      exact drop_after_Index "/user/".toList ref hc.1
    · intro hnu hc
      have h1 : urlIDFromReferer ref
          = ref.drop (Index ref "/button/".toList + 8).toNat := by
        unfold urlIDFromReferer
        simp only
        rw [if_neg (fun h => hnu ((hcond _).mp h)), if_pos ((hcond _).mpr hc)]
      rw [h1]
      exact drop_after_Index "/button/".toList ref hc.1
    · intro hnu hnb
      unfold urlIDFromReferer
      simp only
      rw [if_neg (fun h => hnu ((hcond _).mp h)), if_neg (fun h => hnb ((hcond _).mp h))]

end WebCall
